import Mathlib

/-!
Verification of the COGENT Documentation Search & Context Injection Engine
against its natural-language specification.

The shallow embedding below covers:
* the shared TypeScript validation code and constants (src/unnamed/part_017,
  i.e. shared/types.ts);
* the OpenAPI `SearchRequest` schema (src/openapi.yaml);
* the engine itself (hybrid retriever, relevance validator pool, context
  assembler, protocol layer).  The engine is declared in src/shared/mcp.go
  and planned in the repository's sprint documents, but its implementation
  is not present in the repository, so those definitions are modelled from
  the specification text and carry a `Modelled from the spec:` doc comment.

Scores are embedded as rationals (the source language's numbers are only
compared and linearly combined here, never used in float-specific ways).
-/

namespace Cogent

/-! ### Constants and validation code from shared/types.ts (src/unnamed/part_017) -/

/-- `DEFAULT_SEARCH_RESULTS` constant from shared/types.ts. -/
def DEFAULT_SEARCH_RESULTS : ℕ := 10

/-- `MAX_SEARCH_RESULTS` constant from shared/types.ts. -/
def MAX_SEARCH_RESULTS : ℕ := 50

/-- A JavaScript value as seen by the runtime type checks of
`validateSearchRequest` in shared/types.ts: a string, a number, `undefined`,
or anything else. -/
inductive JSValue where
  | str (s : String)
  | num (q : ℚ)
  | undef
  | other
deriving DecidableEq

/-- The fields of the incoming `data` object that
`validateSearchRequest` inspects. -/
structure SearchRequestData where
  query : JSValue
  max_results : JSValue
deriving DecidableEq

/-- `validateSearchRequest` from shared/types.ts:
`typeof data.query === 'string' && data.query.length > 0 &&
(data.max_results === undefined ||
 (typeof data.max_results === 'number' && data.max_results > 0))`. -/
def validateSearchRequest (d : SearchRequestData) : Bool :=
  (match d.query with
    | .str s => decide (0 < s.length)
    | _ => false)
  && (match d.max_results with
    | .undef => true
    | .num q => decide (0 < q)
    | _ => false)

/-! ### The OpenAPI `SearchRequest` schema (src/openapi.yaml) -/

/-- The `SearchRequest` schema's fields from openapi.yaml: required `query`
(string, `maxLength: 500`), optional `search_type` (enum), optional
`max_results` (integer, `minimum: 1`, `maximum: 50`, `default: 10`). -/
structure SearchRequestSchema where
  query : String
  search_type : Option String
  max_results : Option ℤ
deriving DecidableEq

/-- Schema validity of a `SearchRequest` per openapi.yaml: `query` at most
500 characters, `search_type` in the enum when present, `max_results`
between 1 and 50 when present. -/
def searchRequestSchemaValid (r : SearchRequestSchema) : Bool :=
  decide (r.query.length ≤ 500)
  && (match r.search_type with
    | none => true
    | some t => t == "full_text" || t == "semantic" || t == "hybrid")
  && (match r.max_results with
    | none => true
    | some m => decide (1 ≤ m) && decide (m ≤ 50))

/-! ### Hybrid retriever (spec §4.2) -/

/-- Modelled from the spec: the default fusion weights `w_l, w_v` of §4.2
step 2 ("configuration constants, default equal weight"); the exact value is
left open by the spec, only equality of the two defaults is stated. -/
def w_l : ℚ := 1 / 2

/-- Modelled from the spec: see `w_l`. -/
def w_v : ℚ := 1 / 2

/-- Modelled from the spec: one ranked entry `(document_id, score, excerpt)`
returned by `query_lexical` / `query_vector` of the Index Store (§4.1),
with the chunk resolved to a `(path, line_range)` pair. -/
structure Hit where
  id : String
  path : String
  line_range : String
  score : ℚ
  excerpt : String
deriving DecidableEq

/-- The transient `Candidate` of the spec's data model (§3):
`{document_id, lexical_score, vector_score, excerpt, line_range}`, either
score possibly absent. -/
structure Candidate where
  id : String
  path : String
  line_range : String
  lexical_score : Option ℚ
  vector_score : Option ℚ
  excerpt : String
deriving DecidableEq

/-- Modelled from the spec: the fused score of §4.2 step 2 —
`w_l * lexical + w_v * vector` when both are present, the lexical score when
the vector score is absent; the spec leaves the lexical-absent case
unstated and it is completed symmetrically (§3 rules out both absent, which
is mapped to 0). -/
def fusedScore (c : Candidate) : ℚ :=
  match c.lexical_score, c.vector_score with
  | some l, some v => w_l * l + w_v * v
  | some l, none => l
  | none, some v => v
  | none, none => 0

/-- Modelled from the spec: looking up a document's vector score in the
vector query's reply; `none` for the whole reply signals the §4.1 failure
mode "vector backend unavailable" (distinct from an empty list). -/
def vecLookup (vec : Option (List Hit)) (id : String) : Option ℚ :=
  match vec with
  | none => none
  | some hits => (hits.find? (fun h => h.id == id)).map (fun h => h.score)

/-- Modelled from the spec: the candidate built from a lexical hit, joined
with the vector score of the same document when available (§4.2 steps 1–2). -/
def candidateOfLex (vec : Option (List Hit)) (h : Hit) : Candidate :=
  ⟨h.id, h.path, h.line_range, some h.score, vecLookup vec h.id, h.excerpt⟩

/-- Modelled from the spec: the candidate built from a vector-only hit
(§3: "either score may be absent (not both)"). -/
def candidateOfVec (h : Hit) : Candidate :=
  ⟨h.id, h.path, h.line_range, none, some h.score, h.excerpt⟩

/-- Modelled from the spec: §4.2 steps 1–2, building one candidate set out
of the lexical reply and the (possibly unavailable) vector reply. -/
def mergeCandidates (lex : List Hit) (vec : Option (List Hit)) : List Candidate :=
  lex.map (candidateOfLex vec)
    ++ (match vec with
      | none => []
      | some vhits =>
        (vhits.filter (fun v => !(lex.any (fun h => h.id == v.id)))).map candidateOfVec)

/-- Modelled from the spec: §4.2 step 3 — deduplicate by document/chunk id,
keeping the entry with the higher fused score. -/
def insertDedup (c : Candidate) : List Candidate → List Candidate
  | [] => [c]
  | d :: rest =>
    if c.id = d.id then (if fusedScore d < fusedScore c then c else d) :: rest
    else d :: insertDedup c rest

/-- Modelled from the spec: §4.2 step 3, applied to the whole candidate
list. -/
def dedupCandidates : List Candidate → List Candidate
  | [] => []
  | c :: rest => insertDedup c (dedupCandidates rest)

/-- Modelled from the spec: §4.2 step 4 — `file_type_filter`, exact suffix
match; an empty filter list keeps everything. -/
def matchesFileTypes (fts : List String) (c : Candidate) : Bool :=
  fts.isEmpty || fts.any (fun t => c.path.endsWith t)

/-- Modelled from the spec: the ranking order of §4.2 step 5 with no
recently-edited-file context supplied — fused score descending, ties broken
by document path lexical order. -/
def candOrder (a b : Candidate) : Prop :=
  fusedScore b < fusedScore a ∨ (fusedScore a = fusedScore b ∧ a.path ≤ b.path)

instance : DecidableRel candOrder := fun a b => by
  unfold candOrder; infer_instance

instance : IsTotal Candidate candOrder where
  total a b := by
    rcases lt_trichotomy (fusedScore a) (fusedScore b) with h | h | h
    · exact Or.inr (Or.inl h)
    · rcases le_total a.path b.path with hp | hp
      · exact Or.inl (Or.inr ⟨h, hp⟩)
      · exact Or.inr (Or.inr ⟨h.symm, hp⟩)
    · exact Or.inl (Or.inl h)

instance : IsTrans Candidate candOrder where
  trans a b c hab hbc := by
    rcases hab with h1 | ⟨h1, hp1⟩ <;> rcases hbc with h2 | ⟨h2, hp2⟩
    · exact Or.inl (lt_trans h2 h1)
    · exact Or.inl (h2 ▸ h1)
    · exact Or.inl (h1 ▸ h2)
    · exact Or.inr ⟨h1.trans h2, hp1.trans hp2⟩

/-- Modelled from the spec: `retrieve` of §4.2 — fuse both query replies,
deduplicate, apply the file-type filter, sort descending by fused score with
the deterministic tie-break, truncate to `limit`. -/
def retrieve (lex : List Hit) (vec : Option (List Hit)) (fileTypes : List String)
    (limit : ℕ) : List Candidate :=
  (List.insertionSort candOrder
    ((dedupCandidates (mergeCandidates lex vec)).filter (matchesFileTypes fileTypes))).take
    limit

/-! ### Relevance validator pool (spec §4.3) -/

/-- Modelled from the spec: the outcome of one textual-inference call of
§4.3 — a structured `{keep, reasoning}` answer, a timeout, or an
inference-service error. -/
inductive InferenceOutcome where
  | ok (keep : Bool) (reasoning : String)
  | timeout
  | svcError
deriving DecidableEq

/-- The `ValidatedCandidate` of the spec's data model (§3): a candidate
plus the keep/discard judgment and its reasoning. -/
structure ValidatedCandidate where
  cand : Candidate
  keep : Bool
  reasoning : String
deriving DecidableEq

/-- Modelled from the spec: validation of a single candidate (§4.3) — the
inference service's structured answer is used as-is; on timeout or service
error the candidate is marked `keep=false, reasoning="validation failed"`
(§4.3 and §7, fail-closed). The inference service is the external
collaborator of §6, passed in as a function `oracle`. -/
def validateOne (oracle : String → Candidate → InferenceOutcome) (q : String)
    (c : Candidate) : ValidatedCandidate :=
  match oracle q c with
  | .ok k r => ⟨c, k, r⟩
  | .timeout => ⟨c, false, "validation failed"⟩
  | .svcError => ⟨c, false, "validation failed"⟩

/-- Modelled from the spec: `validate(query, candidates)` of §4.3 — every
candidate is judged independently, one inference call per candidate, and
the output ordering matches the input candidate ordering (§4.3, restored
after the concurrent calls complete). -/
def validateRelevance (oracle : String → Candidate → InferenceOutcome) (q : String)
    (cs : List Candidate) : List ValidatedCandidate :=
  cs.map (validateOne oracle q)

/-! ### Context assembler (spec §4.4) -/

/-- The `SourceAttribution` of the spec's data model (§3):
`{document_path, line_range, relevance_score}`. -/
structure SourceAttribution where
  document_path : String
  line_range : String
  relevance_score : ℚ
deriving DecidableEq

/-- The `ContextBundle` of the spec's data model (§3). -/
structure ContextBundle where
  context_text : String
  sources : List SourceAttribution
  tokens_used : ℕ
deriving DecidableEq

/-- Modelled from the spec: the attribution attached to an included
candidate (§4.4), carrying its fused relevance score. -/
def attribution (v : ValidatedCandidate) : SourceAttribution :=
  ⟨v.cand.path, v.cand.line_range, fusedScore v.cand⟩

/-- Modelled from the spec: the default approximate token counter of §4.4,
characters divided by 4 (the counter is pluggable; theorems below are
stated for an arbitrary counter). -/
def approxTokens (s : String) : ℕ := s.length / 4

/-- The assembler's ordering on validated candidates: the ranking order of
their underlying candidates. -/
def vcOrder (a b : ValidatedCandidate) : Prop := candOrder a.cand b.cand

instance : DecidableRel vcOrder := fun a b => by
  unfold vcOrder; infer_instance

instance : IsTotal ValidatedCandidate vcOrder where
  total a b := total_of candOrder a.cand b.cand

instance : IsTrans ValidatedCandidate vcOrder where
  trans _ _ _ hab hbc := trans_of candOrder hab hbc

/-- Modelled from the spec: the greedy packing loop of §4.4 — append each
candidate's whole cost while the running counter stays within the budget,
stop at the first candidate that would overflow. Returns the included list
and the final counter value. -/
def greedyPack (cost : ValidatedCandidate → ℕ) (budget : ℕ) :
    ℕ → List ValidatedCandidate → List ValidatedCandidate × ℕ
  | used, [] => ([], used)
  | used, v :: rest =>
    if used + cost v ≤ budget then
      let p := greedyPack cost budget (used + cost v) rest
      (v :: p.1, p.2)
    else ([], used)

/-- Modelled from the spec: `assemble(validated_candidates, max_tokens)` of
§4.4 — filter to `keep=true`, sort by fused score descending, greedily pack
whole excerpts under the token budget; `cost` is the pluggable per-item
token count (excerpt tokens plus the fixed attribution overhead). Sources
are attached in inclusion order and `tokens_used` is the final counter. -/
def assemble (cost : ValidatedCandidate → ℕ) (vcs : List ValidatedCandidate)
    (maxTokens : ℕ) : ContextBundle :=
  let kept := vcs.filter (fun v => v.keep)
  let sorted := List.insertionSort vcOrder kept
  let p := greedyPack cost maxTokens 0 sorted
  ⟨String.intercalate "\n" (p.1.map (fun v => v.cand.excerpt)),
    p.1.map attribution, p.2⟩

/-! ### Protocol layer (spec §4.5) -/

/-- Modelled from the spec: the `InvalidInput` protocol error of §7 (the
error taxonomy's only validation-level code). -/
inductive ProtocolError where
  | invalidInput
deriving DecidableEq

/-- The `search_documentation` request shape (§6, and `ContextRequest` of
src/shared/mcp.go for the field spelling). -/
structure SearchRequestP where
  project_id : String
  query : String
  file_types : List String
  max_results : Option ℤ
deriving DecidableEq

/-- The `get_context` request shape (§6; `ContextRequest` of
src/shared/mcp.go). -/
structure ContextRequestP where
  project_id : String
  current_file : Option String
  query : String
  max_tokens : ℕ
  file_types : List String
deriving DecidableEq

/-- Modelled from the spec: what the Index Store returned for one request —
the lexical reply and the vector reply, the latter `none` when the vector
backend or the embedding function is unavailable (§4.1, §4.2 step 1). -/
structure IndexReply where
  lexHits : List Hit
  vecHits : Option (List Hit)

/-- Modelled from the spec: §4.5 input validation for
`search_documentation` — non-empty query, `project_id` required,
`max_results` within the documented bounds (1 to 50, openapi.yaml). -/
def validSearchRequestP (r : SearchRequestP) : Bool :=
  !r.query.isEmpty && !r.project_id.isEmpty
    && (match r.max_results with
      | none => true
      | some m => decide (1 ≤ m) && decide (m ≤ 50))

/-- Modelled from the spec: §4.2 step 6 — the truncation limit is the
caller-supplied `max_results`, default 10, hard ceiling 50. -/
def effectiveLimit (m : Option ℤ) : ℕ :=
  min (m.getD (DEFAULT_SEARCH_RESULTS : ℤ)).toNat MAX_SEARCH_RESULTS

/-- Modelled from the spec: the `search_documentation` operation (§4.5) —
validate the input first, then a thin wrapper over `retrieve`; validation
failures are reported as protocol errors. -/
def handleSearch (idx : IndexReply) (r : SearchRequestP) :
    Except ProtocolError (List Candidate) :=
  if validSearchRequestP r then
    .ok (retrieve idx.lexHits idx.vecHits r.file_types (effectiveLimit r.max_results))
  else .error .invalidInput

/-- Modelled from the spec: §4.5 input validation for `get_context` —
non-empty query and `project_id` required. -/
def validContextRequestP (r : ContextRequestP) : Bool :=
  !r.query.isEmpty && !r.project_id.isEmpty

/-- Modelled from the spec: the retrieval-validation-assembly pipeline that
`get_context` composes (§4.5: 4.2 → 4.3 → 4.4). -/
def getContextPipeline (oracle : String → Candidate → InferenceOutcome)
    (cost : ValidatedCandidate → ℕ) (q : String) (cs : List Candidate)
    (maxTokens : ℕ) : ContextBundle :=
  assemble cost (validateRelevance oracle q cs) maxTokens

/-- Modelled from the spec: the `get_context` operation (§4.5) — validate
the input, retrieve candidates (the engine's default candidate limit),
validate their relevance, assemble under the caller's token budget. -/
def handleGetContext (oracle : String → Candidate → InferenceOutcome)
    (cost : ValidatedCandidate → ℕ) (idx : IndexReply) (r : ContextRequestP) :
    Except ProtocolError ContextBundle :=
  if validContextRequestP r then
    .ok (getContextPipeline oracle cost r.query
      (retrieve idx.lexHits idx.vecHits r.file_types DEFAULT_SEARCH_RESULTS)
      r.max_tokens)
  else .error .invalidInput

/-- Modelled from the spec: the `validate_relevance` operation (§4.5) — a
thin wrapper over §4.3 for callers that already have a candidate list;
input validation (non-empty query) happens first. -/
def handleValidateRelevance (oracle : String → Candidate → InferenceOutcome)
    (q : String) (cs : List Candidate) :
    Except ProtocolError (List ValidatedCandidate) :=
  if !q.isEmpty then .ok (validateRelevance oracle q cs)
  else .error .invalidInput

/-! ### Helper lemmas -/

theorem validateOne_cand (oracle : String → Candidate → InferenceOutcome)
    (q : String) (c : Candidate) : (validateOne oracle q c).cand = c := by
  cases h : oracle q c <;> simp [validateOne, h]

theorem greedyPack_used_le (cost : ValidatedCandidate → ℕ) (budget : ℕ)
    (l : List ValidatedCandidate) :
    ∀ used : ℕ, used ≤ budget → (greedyPack cost budget used l).2 ≤ budget := by
  induction l with
  | nil => intro used h; simpa [greedyPack] using h
  | cons v rest ih =>
    intro used h
    rw [greedyPack]
    by_cases hc : used + cost v ≤ budget
    · rw [if_pos hc]
      exact ih _ hc
    · rw [if_neg hc]
      exact h

theorem greedyPack_sum (cost : ValidatedCandidate → ℕ) (budget : ℕ)
    (l : List ValidatedCandidate) :
    ∀ used : ℕ, (greedyPack cost budget used l).2 =
      used + (((greedyPack cost budget used l).1).map cost).sum := by
  induction l with
  | nil => intro used; simp [greedyPack]
  | cons v rest ih =>
    intro used
    rw [greedyPack]
    by_cases hc : used + cost v ≤ budget
    · rw [if_pos hc]
      have := ih (used + cost v)
      simp only [List.map_cons, List.sum_cons]
      omega
    · rw [if_neg hc]
      simp

theorem greedyPack_append (cost : ValidatedCandidate → ℕ) (budget : ℕ)
    (l : List ValidatedCandidate) :
    ∀ used : ℕ, ∃ rest, l = (greedyPack cost budget used l).1 ++ rest := by
  induction l with
  | nil => intro used; exact ⟨[], by simp [greedyPack]⟩
  | cons v rest ih =>
    intro used
    rw [greedyPack]
    by_cases hc : used + cost v ≤ budget
    · rw [if_pos hc]
      obtain ⟨r0, hr0⟩ := ih (used + cost v)
      exact ⟨r0, by simpa using hr0⟩
    · rw [if_neg hc]
      exact ⟨v :: rest, rfl⟩

theorem greedyPack_stop (cost : ValidatedCandidate → ℕ) (budget : ℕ)
    (l : List ValidatedCandidate) :
    ∀ used : ℕ, ∀ next rest,
      l = (greedyPack cost budget used l).1 ++ next :: rest →
      budget < (greedyPack cost budget used l).2 + cost next := by
  induction l with
  | nil =>
    intro used next rest h
    simp [greedyPack] at h
  | cons v t ih =>
    intro used next rest h
    rw [greedyPack] at h ⊢
    by_cases hc : used + cost v ≤ budget
    · rw [if_pos hc] at h ⊢
      have ht : t = (greedyPack cost budget (used + cost v) t).1 ++ next :: rest := by
        simpa using h
      exact ih (used + cost v) next rest ht
    · rw [if_neg hc] at h ⊢
      have h' : v :: t = next :: rest := by simpa using h
      injection h' with hv ht
      subst hv
      simpa using Nat.lt_of_not_le hc

theorem assemble_sources_eq (cost : ValidatedCandidate → ℕ)
    (vcs : List ValidatedCandidate) (maxTokens : ℕ) :
    (assemble cost vcs maxTokens).sources =
      ((greedyPack cost maxTokens 0
        (List.insertionSort vcOrder (vcs.filter (fun v => v.keep)))).1).map attribution :=
  rfl

theorem assemble_tokens_eq (cost : ValidatedCandidate → ℕ)
    (vcs : List ValidatedCandidate) (maxTokens : ℕ) :
    (assemble cost vcs maxTokens).tokens_used =
      (greedyPack cost maxTokens 0
        (List.insertionSort vcOrder (vcs.filter (fun v => v.keep)))).2 :=
  rfl

theorem mem_insertDedup (c x : Candidate) (l : List Candidate)
    (h : x ∈ insertDedup c l) : x = c ∨ x ∈ l := by
  induction l with
  | nil => simpa [insertDedup] using h
  | cons d rest ih =>
    rw [insertDedup] at h
    by_cases hid : c.id = d.id
    · rw [if_pos hid] at h
      rcases List.mem_cons.mp h with h1 | h1
      · by_cases hf : fusedScore d < fusedScore c
        · rw [if_pos hf] at h1; exact Or.inl h1
        · rw [if_neg hf] at h1; exact Or.inr (h1 ▸ List.mem_cons_self d rest)
      · exact Or.inr (List.mem_cons_of_mem d h1)
    · rw [if_neg hid] at h
      rcases List.mem_cons.mp h with h1 | h1
      · exact Or.inr (h1 ▸ List.mem_cons_self d rest)
      · rcases ih h1 with h2 | h2
        · exact Or.inl h2
        · exact Or.inr (List.mem_cons_of_mem d h2)

theorem mem_dedupCandidates (x : Candidate) (l : List Candidate)
    (h : x ∈ dedupCandidates l) : x ∈ l := by
  induction l with
  | nil => simp [dedupCandidates] at h
  | cons c rest ih =>
    rw [dedupCandidates] at h
    rcases mem_insertDedup c x _ h with h1 | h1
    · exact h1 ▸ List.mem_cons_self c rest
    · exact List.mem_cons_of_mem c (ih h1)

theorem mem_retrieve (lex : List Hit) (vec : Option (List Hit))
    (fileTypes : List String) (limit : ℕ) (c : Candidate)
    (h : c ∈ retrieve lex vec fileTypes limit) :
    c ∈ mergeCandidates lex vec := by
  unfold retrieve at h
  have h1 : c ∈ List.insertionSort candOrder
      ((dedupCandidates (mergeCandidates lex vec)).filter (matchesFileTypes fileTypes)) :=
    (List.take_sublist _ _).subset h
  have h2 := (List.mem_insertionSort candOrder).mp h1
  exact mem_dedupCandidates c _ (List.mem_of_mem_filter h2)

theorem candOrder_antisymm_path (a b : Candidate)
    (h1 : candOrder a b) (h2 : candOrder b a) : a.path = b.path := by
  rcases h1 with h1 | ⟨he1, hp1⟩ <;> rcases h2 with h2 | ⟨he2, hp2⟩
  · exact absurd h1 (lt_asymm h2)
  · rw [he2] at h1; exact absurd h1 (lt_irrefl _)
  · rw [he1] at h2; exact absurd h2 (lt_irrefl _)
  · exact le_antisymm hp1 hp2

theorem sorted_perm_eq_of_nodup_paths (l₁ : List Candidate) :
    ∀ l₂ : List Candidate, l₁.Perm l₂ → List.Sorted candOrder l₁ →
      List.Sorted candOrder l₂ → (l₁.map (fun c => c.path)).Nodup → l₁ = l₂ := by
  induction l₁ with
  | nil =>
    intro l₂ hp _ _ _
    exact hp.nil_eq
  | cons a t ih =>
    intro l₂ hp hs1 hs2 hnd
    cases l₂ with
    | nil => exact absurd hp.eq_nil (by simp)
    | cons b t₂ =>
      by_cases hab : a = b
      · subst hab
        have ht := ih t₂ hp.cons_inv hs1.of_cons hs2.of_cons
          (by simpa using (List.nodup_cons.mp hnd).2)
        rw [ht]
      · have hbt : b ∈ t := by
          rcases List.mem_cons.mp (hp.symm.subset (List.mem_cons_self b t₂)) with h | h
          · exact absurd h.symm hab
          · exact h
        have hat2 : a ∈ t₂ := by
          rcases List.mem_cons.mp (hp.subset (List.mem_cons_self a t)) with h | h
          · exact absurd h hab
          · exact h
        have h1 : candOrder a b := List.rel_of_sorted_cons hs1 b hbt
        have h2 : candOrder b a := List.rel_of_sorted_cons hs2 a hat2
        have hpath := candOrder_antisymm_path a b h1 h2
        have hmem : a.path ∈ t.map (fun c => c.path) :=
          List.mem_map.mpr ⟨b, hbt, hpath.symm⟩
        exact absurd hmem (by simpa using (List.nodup_cons.mp hnd).1)

/-! ### Claim theorems -/

/-- C1: For every `get_context` call, the returned response satisfies
`tokens_used ≤` the caller-supplied `max_tokens` budget. -/
theorem c1_get_context_tokens_within_budget
    (oracle : String → Candidate → InferenceOutcome) (cost : ValidatedCandidate → ℕ)
    (idx : IndexReply) (r : ContextRequestP) (b : ContextBundle)
    (h : handleGetContext oracle cost idx r = .ok b) :
    b.tokens_used ≤ r.max_tokens := by
  unfold handleGetContext at h
  split at h
  · injection h with h
    subst h
    rw [getContextPipeline, assemble_tokens_eq]
    exact greedyPack_used_le _ _ _ 0 (Nat.zero_le _)
  · exact Except.noConfusion h

/-- C2: For every valid `search_documentation` request, the number of
returned results is at most the effective `max_results`; `max_results`
never exceeds the hard ceiling 50 (`MAX_SEARCH_RESULTS`) and defaults to 10
(`DEFAULT_SEARCH_RESULTS`) when the caller omits it. -/
theorem c2_search_results_bounded
    (idx : IndexReply) (r : SearchRequestP) (res : List Candidate)
    (h : handleSearch idx r = .ok res) :
    res.length ≤ effectiveLimit r.max_results ∧
    effectiveLimit r.max_results ≤ MAX_SEARCH_RESULTS ∧
    (r.max_results = none → effectiveLimit r.max_results = DEFAULT_SEARCH_RESULTS) ∧
    (∀ m : ℤ, r.max_results = some m → (res.length : ℤ) ≤ m ∧ m ≤ 50) := by
  by_cases hv : validSearchRequestP r
  · rw [handleSearch, if_pos hv] at h
    injection h with h
    subst h
    have hlen : (retrieve idx.lexHits idx.vecHits r.file_types
        (effectiveLimit r.max_results)).length ≤ effectiveLimit r.max_results := by
      unfold retrieve
      rw [List.length_take]
      omega
    refine ⟨hlen, ?_, ?_, ?_⟩
    · unfold effectiveLimit
      exact Nat.min_le_right _ _
    · intro h0
      rw [h0]
      rfl
    · intro m hm
      unfold validSearchRequestP at hv
      rw [hm] at hv
      simp only [Bool.and_eq_true, decide_eq_true_eq] at hv
      obtain ⟨-, h1, h2⟩ := hv
      have heff : effectiveLimit r.max_results = min m.toNat MAX_SEARCH_RESULTS := by
        rw [hm]
        rfl
      unfold MAX_SEARCH_RESULTS at heff
      refine ⟨?_, h2⟩
      omega
  · rw [handleSearch, if_neg hv] at h
    exact Except.noConfusion h

/-- C3: A candidate whose relevance-validation call times out or errors is
marked `keep=false` with reasoning "validation failed" and is excluded from
`get_context`'s sources, while every candidate in the batch is still
validated and processed, and a valid `get_context` request still succeeds
whatever the inference service does. -/
theorem c3_validator_failure_fail_closed
    (oracle : String → Candidate → InferenceOutcome) (cost : ValidatedCandidate → ℕ)
    (q : String) (cs : List Candidate) (c : Candidate) (maxTokens : ℕ)
    (hfail : oracle q c = .timeout ∨ oracle q c = .svcError)
    (_hmem : c ∈ cs)
    (hpath : ∀ c' ∈ cs, c'.path = c.path → c' = c) :
    (validateOne oracle q c).keep = false ∧
    (validateOne oracle q c).reasoning = "validation failed" ∧
    (validateRelevance oracle q cs).length = cs.length ∧
    (∀ c' ∈ cs, validateOne oracle q c' ∈ validateRelevance oracle q cs) ∧
    (∀ s ∈ (getContextPipeline oracle cost q cs maxTokens).sources,
      s.document_path ≠ c.path) ∧
    (∀ (idx : IndexReply) (r : ContextRequestP), validContextRequestP r = true →
      ∃ b, handleGetContext oracle cost idx r = .ok b) := by
  refine ⟨?_, ?_, List.length_map _ _, fun c' h => List.mem_map_of_mem _ h, ?_, ?_⟩
  · rcases hfail with hf | hf <;> simp [validateOne, hf]
  · rcases hfail with hf | hf <;> simp [validateOne, hf]
  · intro s hs
    rw [getContextPipeline, assemble_sources_eq] at hs
    obtain ⟨v, hv, rfl⟩ := List.mem_map.mp hs
    obtain ⟨rest, hrest⟩ := greedyPack_append cost maxTokens
      (List.insertionSort vcOrder
        ((validateRelevance oracle q cs).filter (fun v => v.keep))) 0
    have hvs : v ∈ List.insertionSort vcOrder
        ((validateRelevance oracle q cs).filter (fun v => v.keep)) := by
      rw [hrest]
      exact List.mem_append_left _ hv
    have hvf := (List.mem_insertionSort vcOrder).mp hvs
    have hkeep : v.keep = true := by simpa using (List.mem_filter.mp hvf).2
    have hvmem : v ∈ validateRelevance oracle q cs := (List.mem_filter.mp hvf).1
    obtain ⟨c'', hc'', hvc⟩ := List.mem_map.mp hvmem
    intro heq
    have hcand : v.cand = c'' := by rw [← hvc]; exact validateOne_cand oracle q c''
    have hcc : c'' = c := by
      refine hpath c'' hc'' ?_
      rw [← hcand]
      exact heq
    have hvone : v = validateOne oracle q c := by rw [← hvc, hcc]
    have hkf : v.keep = false := by
      rw [hvone]
      rcases hfail with hf | hf <;> simp [validateOne, hf]
    rw [hkf] at hkeep
    exact Bool.noConfusion hkeep
  · intro idx r hv
    exact ⟨_, by rw [handleGetContext, if_pos hv]⟩

/-- C4: A request whose query string is empty is rejected — the shared
`validateSearchRequest` returns `false`, and each protocol operation
returns the `InvalidInput` protocol error rather than an empty result. -/
theorem c4_empty_query_rejected :
    (∀ d : SearchRequestData, d.query = .str "" → validateSearchRequest d = false) ∧
    (∀ (idx : IndexReply) (r : SearchRequestP), r.query = "" →
      handleSearch idx r = .error .invalidInput) ∧
    (∀ (oracle : String → Candidate → InferenceOutcome)
      (cost : ValidatedCandidate → ℕ) (idx : IndexReply) (r : ContextRequestP),
      r.query = "" → handleGetContext oracle cost idx r = .error .invalidInput) ∧
    (∀ (oracle : String → Candidate → InferenceOutcome) (cs : List Candidate),
      handleValidateRelevance oracle "" cs = .error .invalidInput) := by
  have he : ("" : String).isEmpty = true := rfl
  refine ⟨?_, ?_, ?_, ?_⟩
  · intro d hq
    unfold validateSearchRequest
    rw [hq]
    simp
  · intro idx r hq
    have hv : validSearchRequestP r = false := by
      unfold validSearchRequestP
      rw [hq, he]
      simp
    rw [handleSearch, if_neg (by simp [hv])]
  · intro oracle cost idx r hq
    have hv : validContextRequestP r = false := by
      unfold validContextRequestP
      rw [hq, he]
      simp
    rw [handleGetContext, if_neg (by simp [hv])]
  · intro oracle cs
    rw [handleValidateRelevance, if_neg (by simp [he])]

/-- C5: When the vector backend (or the embedding function) is unavailable,
a valid search request still succeeds with lexical-only scoring: every
returned candidate has no vector score and its fused score equals its
lexical score. -/
theorem c5_vector_unavailable_degrades_to_lexical
    (idx : IndexReply) (r : SearchRequestP)
    (hvec : idx.vecHits = none) (hvalid : validSearchRequestP r = true) :
    ∃ res, handleSearch idx r = .ok res ∧
      ∀ c ∈ res, c.vector_score = none ∧
        ∃ l, c.lexical_score = some l ∧ fusedScore c = l := by
  refine ⟨_, by rw [handleSearch, if_pos hvalid], ?_⟩
  intro c hc
  have hm := mem_retrieve _ _ _ _ c hc
  rw [hvec] at hm
  simp only [mergeCandidates, List.append_nil] at hm
  obtain ⟨h0, hh0, hc0⟩ := List.mem_map.mp hm
  subst hc0
  refine ⟨rfl, h0.score, rfl, ?_⟩
  simp [fusedScore, candidateOfLex, vecLookup]

/-- C6: `assemble(validated_candidates, max_tokens)` keeps only `keep=true`
candidates, orders them by fused score descending (ties by path), and
greedily appends whole items while the running token count stays within
`max_tokens`; it stops at the first candidate that would overflow the
budget and never emits a partially truncated excerpt — the token count is
exactly the sum of the whole included items' costs. -/
theorem c6_assemble_greedy_packing
    (cost : ValidatedCandidate → ℕ) (vcs : List ValidatedCandidate) (maxTokens : ℕ) :
    ∃ included : List ValidatedCandidate,
      (assemble cost vcs maxTokens).sources = included.map attribution ∧
      (assemble cost vcs maxTokens).context_text =
        String.intercalate "\n" (included.map (fun v => v.cand.excerpt)) ∧
      (assemble cost vcs maxTokens).tokens_used = (included.map cost).sum ∧
      (included.map cost).sum ≤ maxTokens ∧
      (∀ v ∈ included, v.keep = true) ∧
      List.Sorted vcOrder included ∧
      (∃ rest, List.insertionSort vcOrder (vcs.filter (fun v => v.keep)) =
        included ++ rest) ∧
      (∀ next rest,
        List.insertionSort vcOrder (vcs.filter (fun v => v.keep)) =
          included ++ next :: rest →
        maxTokens < (included.map cost).sum + cost next) := by
  refine ⟨(greedyPack cost maxTokens 0
      (List.insertionSort vcOrder (vcs.filter (fun v => v.keep)))).1,
    rfl, rfl, ?_, ?_, ?_, ?_, ?_, ?_⟩
  · rw [assemble_tokens_eq]
    have h1 := greedyPack_sum cost maxTokens
      (List.insertionSort vcOrder (vcs.filter (fun v => v.keep))) 0
    omega
  · have h1 := greedyPack_sum cost maxTokens
      (List.insertionSort vcOrder (vcs.filter (fun v => v.keep))) 0
    have h2 := greedyPack_used_le cost maxTokens
      (List.insertionSort vcOrder (vcs.filter (fun v => v.keep))) 0 (Nat.zero_le _)
    omega
  · intro v hv
    obtain ⟨rest, hrest⟩ := greedyPack_append cost maxTokens
      (List.insertionSort vcOrder (vcs.filter (fun v => v.keep))) 0
    have hvs : v ∈ List.insertionSort vcOrder (vcs.filter (fun v => v.keep)) := by
      rw [hrest]
      exact List.mem_append_left _ hv
    have hvf := (List.mem_insertionSort vcOrder).mp hvs
    simpa using (List.mem_filter.mp hvf).2
  · obtain ⟨rest, hrest⟩ := greedyPack_append cost maxTokens
      (List.insertionSort vcOrder (vcs.filter (fun v => v.keep))) 0
    have hsort := List.sorted_insertionSort vcOrder (vcs.filter (fun v => v.keep))
    rw [hrest] at hsort
    exact hsort.sublist (List.sublist_append_left _ _)
  · exact greedyPack_append cost maxTokens _ 0
  · intro next rest hr
    have h1 := greedyPack_sum cost maxTokens
      (List.insertionSort vcOrder (vcs.filter (fun v => v.keep))) 0
    have h2 := greedyPack_stop cost maxTokens
      (List.insertionSort vcOrder (vcs.filter (fun v => v.keep))) 0 next rest hr
    omega

/-- C7: Two `search_documentation` calls with identical inputs against the
same index state return identical result orderings and scores; the
returned ordering is the deterministic fused-score-descending order with
ties broken by document path lexical order, and with distinct document
paths it is the unique such ordering. -/
theorem c7_search_deterministic
    (idx : IndexReply) (r : SearchRequestP) (res res' : List Candidate)
    (h : handleSearch idx r = .ok res) (h' : handleSearch idx r = .ok res')
    (hnd : (res.map (fun c => c.path)).Nodup) :
    res = res' ∧ List.Sorted candOrder res ∧
    (∀ l : List Candidate, l.Perm res → List.Sorted candOrder l → l = res) := by
  have hrr : res = res' := by
    rw [h] at h'
    injection h' with h'
  have hsorted : List.Sorted candOrder res := by
    by_cases hv : validSearchRequestP r
    · rw [handleSearch, if_pos hv] at h
      injection h with h
      subst h
      unfold retrieve
      have := List.sorted_insertionSort candOrder
        ((dedupCandidates (mergeCandidates idx.lexHits idx.vecHits)).filter
          (matchesFileTypes r.file_types))
      exact this.sublist (List.take_sublist _ _)
    · rw [handleSearch, if_neg hv] at h
      exact Except.noConfusion h
  refine ⟨hrr, hsorted, ?_⟩
  intro l hp hs
  exact sorted_perm_eq_of_nodup_paths l res hp hs hsorted
    ((hp.map (fun c => c.path)).nodup_iff.mpr hnd)

/-- C8: Permuting the candidate list passed to `validate_relevance` leaves
the keep-set unchanged (each verdict is a pure function of query and
candidate), and the output ordering always matches the input candidate
ordering. -/
theorem c8_validate_relevance_order_independent
    (oracle : String → Candidate → InferenceOutcome) (q : String)
    (cs cs' : List Candidate) (hp : cs.Perm cs') :
    ((validateRelevance oracle q cs).map (fun v => v.cand) = cs) ∧
    (validateRelevance oracle q cs).Perm (validateRelevance oracle q cs') ∧
    ((validateRelevance oracle q cs).filter (fun v => v.keep)).Perm
      ((validateRelevance oracle q cs').filter (fun v => v.keep)) ∧
    (∀ c ∈ cs, validateOne oracle q c ∈ validateRelevance oracle q cs) := by
  refine ⟨?_, ?_, ?_, fun c h => List.mem_map_of_mem _ h⟩
  · rw [validateRelevance, List.map_map]
    have hcomp : ((fun v : ValidatedCandidate => v.cand) ∘ validateOne oracle q) = id := by
      funext c
      exact validateOne_cand oracle q c
    rw [hcomp, List.map_id]
  · exact hp.map _
  · exact (hp.map _).filter _

/-- C9: `validateSearchRequest` accepts exactly the objects whose `query`
is a non-empty string and whose `max_results` is undefined or any positive
number; it enforces no upper bound, so a `max_results` of 1000 — above the
exported `MAX_SEARCH_RESULTS` constant of 50 — passes validation. -/
theorem c9_validateSearchRequest_no_upper_bound :
    (∀ d : SearchRequestData, validateSearchRequest d = true ↔
      ((∃ s, d.query = .str s ∧ 0 < s.length) ∧
        (d.max_results = .undef ∨ ∃ q : ℚ, d.max_results = .num q ∧ 0 < q))) ∧
    validateSearchRequest ⟨.str "x", .num 1000⟩ = true ∧
    (MAX_SEARCH_RESULTS : ℚ) < 1000 := by
  refine ⟨?_, rfl, by norm_num [MAX_SEARCH_RESULTS]⟩
  intro d
  obtain ⟨dq, dm⟩ := d
  cases dq <;> cases dm <;> simp [validateSearchRequest]

/-- C10: Every schema-valid `SearchRequest` per openapi.yaml has a query of
length at most 500 characters (the schema's `maxLength: 500`). -/
theorem c10_query_bounded_500
    (r : SearchRequestSchema) (h : searchRequestSchemaValid r = true) :
    r.query.length ≤ 500 := by
  unfold searchRequestSchemaValid at h
  simp only [Bool.and_eq_true, decide_eq_true_eq] at h
  exact h.1.1

/-! ### Concrete witness data -/

/-- A lexical hit used by the witnesses (spec §8 Scenario 1). -/
def exLexHit : Hit := ⟨"d1", "auth.py", "1-3", 1, "def login(user, password):"⟩

/-- A one-document index reply with the vector backend unavailable. -/
def exIdx : IndexReply := ⟨[exLexHit], none⟩

/-- The candidate produced from `exLexHit` with no vector reply. -/
def exCand : Candidate := candidateOfLex none exLexHit

/-- An inference oracle that keeps everything. -/
def exOracleYes : String → Candidate → InferenceOutcome := fun _ _ => .ok true "relevant"

/-- The default cost function: approximate excerpt tokens plus a fixed
attribution overhead of 10. -/
def exCost : ValidatedCandidate → ℕ := fun v => approxTokens v.cand.excerpt + 10

/-- A valid search request with `max_results` omitted. -/
def exSearchReq : SearchRequestP := ⟨"p1", "user login", [], none⟩

/-- A valid context request with a 64-token budget. -/
def exCtxReq : ContextRequestP := ⟨"p1", none, "user login", 64, []⟩

/-- Five candidates with distinct paths (spec §8 Scenario 5). -/
def exCands : List Candidate :=
  [⟨"c1", "f1.py", "1-2", some 1, none, "aaaa"⟩,
   ⟨"c2", "f2.py", "1-2", some 1, none, "bbbb"⟩,
   ⟨"c3", "f3.py", "1-2", some 1, none, "cccc"⟩,
   ⟨"c4", "f4.py", "1-2", some 1, none, "dddd"⟩,
   ⟨"c5", "f5.py", "1-2", some 1, none, "eeee"⟩]

/-- Candidate #3 of `exCands`. -/
def exCand3 : Candidate := ⟨"c3", "f3.py", "1-2", some 1, none, "cccc"⟩

/-- An oracle whose call for candidate #3 times out and keeps the rest. -/
def exOracle3 : String → Candidate → InferenceOutcome :=
  fun _ c => if c.path = "f3.py" then .timeout else .ok true "relevant"

/-- A second candidate for the permutation witness. -/
def exCandB : Candidate := ⟨"c9", "b.py", "1-2", some 1, none, "zzzz"⟩

/-- One validated candidate for the assembler witness. -/
def exVC6 : List ValidatedCandidate := [⟨exCand, true, "relevant"⟩]

/-! ### Witnesses -/

/-- Witness for C1 at a concrete `get_context` call. -/
theorem c1_witness :
    (⟨"def login(user, password):", [⟨"auth.py", "1-3", 1⟩], 16⟩ :
      ContextBundle).tokens_used ≤ exCtxReq.max_tokens :=
  c1_get_context_tokens_within_budget exOracleYes exCost exIdx exCtxReq
    ⟨"def login(user, password):", [⟨"auth.py", "1-3", 1⟩], 16⟩ rfl

/-- Witness for C2 at a concrete `search_documentation` call. -/
theorem c2_witness :
    ([exCand] : List Candidate).length ≤ effectiveLimit exSearchReq.max_results ∧
    effectiveLimit exSearchReq.max_results ≤ MAX_SEARCH_RESULTS ∧
    (exSearchReq.max_results = none →
      effectiveLimit exSearchReq.max_results = DEFAULT_SEARCH_RESULTS) ∧
    (∀ m : ℤ, exSearchReq.max_results = some m →
      (([exCand] : List Candidate).length : ℤ) ≤ m ∧ m ≤ 50) :=
  c2_search_results_bounded exIdx exSearchReq [exCand] rfl

/-- Witness for C3: five candidates, the validator for candidate #3 times
out. -/
theorem c3_witness :
    (validateOne exOracle3 "query" exCand3).keep = false ∧
    (validateOne exOracle3 "query" exCand3).reasoning = "validation failed" ∧
    (validateRelevance exOracle3 "query" exCands).length = exCands.length ∧
    (∀ c' ∈ exCands,
      validateOne exOracle3 "query" c' ∈ validateRelevance exOracle3 "query" exCands) ∧
    (∀ s ∈ (getContextPipeline exOracle3 exCost "query" exCands 100).sources,
      s.document_path ≠ exCand3.path) ∧
    (∀ (idx : IndexReply) (r : ContextRequestP), validContextRequestP r = true →
      ∃ b, handleGetContext exOracle3 exCost idx r = .ok b) :=
  c3_validator_failure_fail_closed exOracle3 exCost "query" exCands exCand3 100
    (Or.inl rfl) (by decide) (by decide)

/-- Witness for C4 at concrete empty-query inputs. -/
theorem c4_witness :
    validateSearchRequest ⟨.str "", .undef⟩ = false ∧
    handleSearch exIdx ⟨"p1", "", [], none⟩ = .error .invalidInput :=
  ⟨c4_empty_query_rejected.1 ⟨.str "", .undef⟩ rfl,
   c4_empty_query_rejected.2.1 exIdx ⟨"p1", "", [], none⟩ rfl⟩

/-- Witness for C5: vector backend unavailable, one lexical match. -/
theorem c5_witness :
    ∃ res, handleSearch exIdx exSearchReq = .ok res ∧
      ∀ c ∈ res, c.vector_score = none ∧
        ∃ l, c.lexical_score = some l ∧ fusedScore c = l :=
  c5_vector_unavailable_degrades_to_lexical exIdx exSearchReq rfl rfl

/-- Witness for C6 at a concrete assembler input. -/
theorem c6_witness :
    ∃ included : List ValidatedCandidate,
      (assemble exCost exVC6 50).sources = included.map attribution ∧
      (assemble exCost exVC6 50).context_text =
        String.intercalate "\n" (included.map (fun v => v.cand.excerpt)) ∧
      (assemble exCost exVC6 50).tokens_used = (included.map exCost).sum ∧
      (included.map exCost).sum ≤ 50 ∧
      (∀ v ∈ included, v.keep = true) ∧
      List.Sorted vcOrder included ∧
      (∃ rest, List.insertionSort vcOrder (exVC6.filter (fun v => v.keep)) =
        included ++ rest) ∧
      (∀ next rest,
        List.insertionSort vcOrder (exVC6.filter (fun v => v.keep)) =
          included ++ next :: rest →
        50 < (included.map exCost).sum + exCost next) :=
  c6_assemble_greedy_packing exCost exVC6 50

/-- Witness for C7 at a concrete repeated `search_documentation` call. -/
theorem c7_witness :
    ([exCand] : List Candidate) = [exCand] ∧
    List.Sorted candOrder [exCand] ∧
    (∀ l : List Candidate, l.Perm [exCand] →
      List.Sorted candOrder l → l = [exCand]) :=
  c7_search_deterministic exIdx exSearchReq [exCand] [exCand] rfl rfl (by decide)

/-- Witness for C8 at a concrete two-candidate permutation. -/
theorem c8_witness :
    ((validateRelevance exOracleYes "q" [exCand, exCandB]).map (fun v => v.cand) =
      [exCand, exCandB]) ∧
    (validateRelevance exOracleYes "q" [exCand, exCandB]).Perm
      (validateRelevance exOracleYes "q" [exCandB, exCand]) ∧
    ((validateRelevance exOracleYes "q" [exCand, exCandB]).filter (fun v => v.keep)).Perm
      ((validateRelevance exOracleYes "q" [exCandB, exCand]).filter (fun v => v.keep)) ∧
    (∀ c ∈ ([exCand, exCandB] : List Candidate),
      validateOne exOracleYes "q" c ∈ validateRelevance exOracleYes "q" [exCand, exCandB]) :=
  c8_validate_relevance_order_independent exOracleYes "q" [exCand, exCandB]
    [exCandB, exCand] (List.Perm.swap exCandB exCand [])

/-- Witness for C9: the concrete over-the-ceiling request passes. -/
theorem c9_witness :
    validateSearchRequest ⟨.str "x", .num 1000⟩ = true ∧
    (MAX_SEARCH_RESULTS : ℚ) < 1000 :=
  ⟨c9_validateSearchRequest_no_upper_bound.2.1,
   c9_validateSearchRequest_no_upper_bound.2.2⟩

/-- Witness for C10 at a concrete schema-valid request. -/
theorem c10_witness :
    (⟨"user login", some "hybrid", some 10⟩ : SearchRequestSchema).query.length ≤ 500 :=
  c10_query_bounded_500 ⟨"user login", some "hybrid", some 10⟩ rfl

end Cogent
